import Mathlib

/--
Verification development for the single-page mirroring script
`scripts/download.py`.  Strings are modelled as lists of characters
(`Str`).  Library functions used by the script (`urllib.parse.unquote`,
`urlsplit`, `urljoin`, `urlunsplit`, `os.path.splitext`, `hashlib.md5`)
are modelled below, faithful to CPython's behaviour on the inputs the
script exercises (ASCII text; percent-escapes are decoded byte-wise,
which agrees with CPython for single-byte escapes).
-/
def specIntro : Unit := ()

abbrev Str := List Char

def strL (s : String) : Str := s.toList

/-- Characters stripped by Python's `str.strip()` (ASCII whitespace). -/
def isWsChar (c : Char) : Bool :=
  c = ' ' ∨ c = '\t' ∨ c = '\n' ∨ c = '\r' ∨ c = '\x0b' ∨ c = '\x0c'

/-- Model of Python `str.strip()`: drop whitespace from both ends. -/
def stripStr (s : Str) : Str :=
  ((s.dropWhile isWsChar).reverse.dropWhile isWsChar).reverse

/-- Model of Python `str.lower()` (ASCII range). -/
def lowerStr (s : Str) : Str := s.map Char.toLower

/-- Model of Python `str.split(sep)` for a one-character separator:
splits on every occurrence, keeping empty pieces. -/
def splitAll (sep : Char) (l : Str) : List Str :=
  l.foldr (fun ch acc =>
    match acc with
    | [] => [[ch]]
    | h :: t => if ch = sep then [] :: h :: t else (ch :: h) :: t) [[]]

/-- Split at the first occurrence of `c`: the part before and the part
after (the part after is empty when `c` does not occur), as in Python's
`s.split(c, 1)` used by `urlsplit`. -/
def splitOnce (c : Char) (l : Str) : Str × Str :=
  match List.findIdx? (fun ch => ch == c) l with
  | some i => (l.take i, l.drop (i + 1))
  | none => (l, [])

def isHexDigitC (c : Char) : Bool :=
  c.isDigit ∨ ('a' ≤ c ∧ c ≤ 'f') ∨ ('A' ≤ c ∧ c ≤ 'F')

def hexValC (c : Char) : Nat :=
  if c.isDigit then c.toNat - 48
  else if 'a' ≤ c ∧ c ≤ 'f' then c.toNat - 87
  else c.toNat - 55

/-- Model of `urllib.parse.unquote`: each `%XX` hex escape becomes the
character with that code; a `%` not followed by two hex digits is kept
literally.  (Byte-wise model: agrees with CPython for escapes below
`0x80`, the only ones exercised here.) -/
def unquote : Str → Str
  | [] => []
  | '%' :: a :: b :: rest =>
    if isHexDigitC a ∧ isHexDigitC b then
      Char.ofNat (hexValC a * 16 + hexValC b) :: unquote rest
    else '%' :: unquote (a :: b :: rest)
  | c :: rest => c :: unquote rest

structure SplitResult where
  scheme : Str
  netloc : Str
  path : Str
  query : Str
  fragment : Str
deriving DecidableEq

def isSchemeChar (c : Char) : Bool :=
  c.isAlpha ∨ c.isDigit ∨ c = '+' ∨ c = '-' ∨ c = '.'

/-- Model of `urllib.parse.urlsplit` (no parameter splitting; CPython
order: scheme, then `//netloc`, then fragment, then query). -/
def urlsplit (url : Str) : SplitResult :=
  let su :=
    match List.findIdx? (fun ch => ch == ':') url with
    | some i =>
      if 0 < i ∧ (url.headD ' ').isAlpha ∧ (url.take i).all isSchemeChar then
        (lowerStr (url.take i), url.drop (i + 1))
      else ([], url)
    | none => ([], url)
  let nl :=
    if (strL ("//")).isPrefixOf su.2 then
      let after := su.2.drop 2
      let n := (List.findIdx? (fun c => c == '/' ∨ c == '?' ∨ c == '#') after).getD after.length
      (after.take n, after.drop n)
    else ([], su.2)
  let uf := splitOnce '#' nl.2
  let pq := splitOnce '?' uf.1
  ⟨su.1, nl.1, pq.1, pq.2, uf.2⟩

/-- `urlsplit` with a default scheme, as in `urlparse(url, bscheme)`. -/
def urlsplitD (dflt : Str) (url : Str) : SplitResult :=
  let r := urlsplit url
  if r.scheme = [] then ⟨dflt, r.netloc, r.path, r.query, r.fragment⟩ else r

/-- Model of `urllib.parse.urlunsplit`. -/
def urlunsplit (s : SplitResult) : Str :=
  let u0 := s.path
  let u1 :=
    if s.netloc ≠ [] ∨ (strL ("//")).isPrefixOf u0 then
      '/' :: '/' :: s.netloc ++ (if u0 ≠ [] ∧ ¬ (strL ("/")).isPrefixOf u0 then '/' :: u0 else u0)
    else u0
  let u2 := if s.scheme ≠ [] then s.scheme ++ ':' :: u1 else u1
  let u3 := if s.query ≠ [] then u2 ++ '?' :: s.query else u2
  if s.fragment ≠ [] then u3 ++ '#' :: s.fragment else u3

/-- Schemes for which relative resolution applies (restriction of
CPython's `uses_relative`/`uses_netloc` to the schemes exercised; all
listed schemes belong to both CPython lists). -/
def usesRelNet : List Str :=
  [[], strL ("http"), strL ("https"), strL ("ftp"), strL ("file"), strL ("ws"), strL ("wss")]

/-- `segments[1:-1] = filter(None, segments[1:-1])`: drop empty strings
from the middle of the list, keeping the first and last elements. -/
def midFilterAux : List Str → List Str
  | [] => []
  | [a] => [a]
  | a :: rest => if a = [] then midFilterAux rest else a :: midFilterAux rest

def midFilter : List Str → List Str
  | [] => []
  | [a] => [a]
  | a :: rest => a :: midFilterAux rest

/-- Model of `urllib.parse.urljoin` (CPython 3.x algorithm, with empty
`params`). -/
def urljoin (base url : Str) : Str :=
  if base = [] then url
  else if url = [] then base
  else
    let b := urlsplit base
    let r := urlsplitD b.scheme url
    if r.scheme ≠ b.scheme ∨ r.scheme ∉ usesRelNet then url
    else if r.netloc ≠ [] then urlunsplit ⟨r.scheme, r.netloc, r.path, r.query, r.fragment⟩
    else
      let netloc := b.netloc
      if r.path = [] then
        urlunsplit ⟨r.scheme, netloc, b.path, (if r.query = [] then b.query else r.query), r.fragment⟩
      else
        let baseParts0 := splitAll '/' b.path
        let baseParts := if baseParts0.getLastD [] ≠ [] then baseParts0.dropLast else baseParts0
        let segments :=
          if (strL ("/")).isPrefixOf r.path then splitAll '/' r.path
          else midFilter (baseParts ++ splitAll '/' r.path)
        let resolved := segments.foldl (fun acc seg =>
          if seg = strL ("..") then acc.dropLast
          else if seg = strL (".") then acc
          else acc ++ [seg]) []
        let resolved :=
          if segments.getLastD [] = strL (".") ∨ segments.getLastD [] = strL ("..") then
            resolved ++ [[]]
          else resolved
        let p := List.intercalate (strL ("/")) resolved
        urlunsplit ⟨r.scheme, netloc, (if p = [] then strL ("/") else p), r.query, r.fragment⟩

/-- The part of `p` after the last `/` (the POSIX basename). -/
def afterLastSlash (p : Str) : Str :=
  p.foldl (fun acc c => if c = '/' then [] else acc ++ [c]) []

def lastIdxOf (c : Char) (l : Str) : Option Nat :=
  (List.findIdx? (fun ch => ch == c) l.reverse).map (fun i => l.length - 1 - i)

/-- The extension part of `os.path.splitext(p)`: from the last dot of the
basename, provided some earlier character of the basename is not a dot. -/
def extOf (p : Str) : Str :=
  let base := afterLastSlash p
  match lastIdxOf '.' base with
  | none => []
  | some d => if (base.take d).any (fun c => c ≠ '.') then base.drop d else []

/-- Concatenation of the images of `f` (Python list/`bytes` joins). -/
def catMap (f : α → List β) : List α → List β
  | [] => []
  | a :: as => f a ++ catMap f as

/-- UTF-8 encoding of a character code, as in `str.encode()`. -/
def utf8Char (n : Nat) : List Nat :=
  if n < 128 then [n]
  else if n < 2048 then [192 + n / 64, 128 + n % 64]
  else if n < 65536 then [224 + n / 4096, 128 + n / 64 % 64, 128 + n % 64]
  else [240 + n / 262144, 128 + n / 4096 % 64, 128 + n / 64 % 64, 128 + n % 64]

def utf8Bytes (s : Str) : List Nat := catMap (fun c => utf8Char c.toNat) s

def w32M : Nat := 4294967296

/-- The MD5 sine-derived constant table. -/
def kTab : List Nat :=
  [3614090360, 3905402710, 606105819, 3250441966, 4118548399, 1200080426, 2821735955, 4249261313,
   1770035416, 2336552879, 4294925233, 2304563134, 1804603682, 4254626195, 2792965006, 1236535329,
   4129170786, 3225465664, 643717713, 3921069994, 3593408605, 38016083, 3634488961, 3889429448,
   568446438, 3275163606, 4107603335, 1163531501, 2850285829, 4243563512, 1735328473, 2368359562,
   4294588738, 2272392833, 1839030562, 4259657740, 2763975236, 1272893353, 4139469664, 3200236656,
   681279174, 3936430074, 3572445317, 76029189, 3654602809, 3873151461, 530742520, 3299628645,
   4096336452, 1126891415, 2878612391, 4237533241, 1700485571, 2399980690, 4293915773, 2240044497,
   1873313359, 4264355552, 2734768916, 1309151649, 4149444226, 3174756917, 718787259, 3951481745]

/-- The MD5 per-round left-rotation amounts. -/
def sTab : List Nat :=
  [7, 12, 17, 22, 7, 12, 17, 22, 7, 12, 17, 22, 7, 12, 17, 22,
   5, 9, 14, 20, 5, 9, 14, 20, 5, 9, 14, 20, 5, 9, 14, 20,
   4, 11, 16, 23, 4, 11, 16, 23, 4, 11, 16, 23, 4, 11, 16, 23,
   6, 10, 15, 21, 6, 10, 15, 21, 6, 10, 15, 21, 6, 10, 15, 21]

/-- Bitwise complement on 32-bit words represented as `Nat < 2^32`. -/
def notW (x : Nat) : Nat := 4294967295 - x

/-- 32-bit left rotation (valid for `x < 2^32`, `0 < s < 32`). -/
def rotl (x s : Nat) : Nat := (x * 2 ^ s) % w32M + x / 2 ^ (32 - s)

/-- Little-endian 32-bit message word `g` of a 64-byte block. -/
def mWord (blk : List Nat) (g : Nat) : Nat :=
  blk.getD (4 * g) 0 + 256 * blk.getD (4 * g + 1) 0 +
    65536 * blk.getD (4 * g + 2) 0 + 16777216 * blk.getD (4 * g + 3) 0

/-- One MD5 round step. -/
def md5Step (blk : List Nat) (st : Nat × Nat × Nat × Nat) (i : Nat) : Nat × Nat × Nat × Nat :=
  let a := st.1
  let b := st.2.1
  let c := st.2.2.1
  let d := st.2.2.2
  let fg :=
    if i < 16 then ((b &&& c) ||| (notW b &&& d), i)
    else if i < 32 then ((d &&& b) ||| (notW d &&& c), (5 * i + 1) % 16)
    else if i < 48 then (b ^^^ c ^^^ d, (3 * i + 5) % 16)
    else (c ^^^ (b ||| notW d), (7 * i) % 16)
  let f := (fg.1 + a + kTab.getD i 0 + mWord blk fg.2) % w32M
  (d, (b + rotl f (sTab.getD i 0)) % w32M, b, c)

/-- Compression of one 64-byte block. -/
def md5Block (st : Nat × Nat × Nat × Nat) (blk : List Nat) : Nat × Nat × Nat × Nat :=
  let r := (List.range 64).foldl (md5Step blk) st
  ((st.1 + r.1) % w32M, (st.2.1 + r.2.1) % w32M,
   (st.2.2.1 + r.2.2.1) % w32M, (st.2.2.2 + r.2.2.2) % w32M)

/-- MD5 padding: `0x80`, zeros to 56 mod 64, then the bit length in 8
little-endian bytes. -/
def md5Pad (msg : List Nat) : List Nat :=
  let len := msg.length
  msg ++ [128] ++ List.replicate ((119 - len % 64) % 64) 0 ++
    (List.range 8).map (fun i => (8 * len) % 18446744073709551616 / 256 ^ i % 256)

/-- Cut a byte list into 64-byte blocks (the fuel is an upper bound on
the number of blocks; the padded length is what gets passed). -/
def chunks : Nat → List Nat → List (List Nat)
  | 0, _ => []
  | _ + 1, [] => []
  | fuel + 1, c :: rest => ((c :: rest).take 64) :: chunks fuel ((c :: rest).drop 64)

def leBytes (w : Nat) : List Nat := [w % 256, w / 256 % 256, w / 65536 % 256, w / 16777216 % 256]

/-- The 16-byte MD5 digest of a byte string. -/
def md5Bytes (msg : List Nat) : List Nat :=
  let padded := md5Pad msg
  let st := (chunks padded.length padded).foldl md5Block (1732584193, 4023233417, 2562383102, 271733878)
  leBytes st.1 ++ leBytes st.2.1 ++ leBytes st.2.2.1 ++ leBytes st.2.2.2

def hexDigitsL : Str := strL ("0123456789abcdef")

def hexCharOf (n : Nat) : Char := hexDigitsL.getD (n % 16) ('0')

def hexOfBytes (bs : List Nat) : Str := catMap (fun b => [hexCharOf (b / 16), hexCharOf (b % 16)]) bs

/-- `hashlib.md5(s.encode()).hexdigest()`. -/
def md5hex (s : Str) : Str := hexOfBytes (md5Bytes (utf8Bytes s))

/-- Observable effects of a run: asset fetches (`requests.get` inside
`download_and_replace_asset`), asset-file writes, the page fetch, and
the final output-markup write. -/
inductive Ev where
  | fetch (url : Str)
  | write (fname : Str)
  | pageFetch (url : Str)
  | output
deriving DecidableEq

/-- The mutable world threaded through the run: the asset store
(filename, contents — `os.path.exists` is the dedup signal) and the
event trace in chronological order. -/
structure St where
  store : List (Str × Str)
  trace : List Ev
deriving DecidableEq

/-- A network transport: URL to (status code, body), modelling
`requests.get` for asset URLs. -/
abbrev Net := Str → Nat × Str

def assetDirName : Str := strL ("assets")

/-- `f"{url_hash}{original_extension}"` with the `.bin` fallback:
the cached filename derived from the resolved path. -/
def assetFilename (path : Str) : Str :=
  (md5hex path).take 10 ++ (if extOf path = [] then strL (".bin") else extOf path)

/-- `f"{BASE_URL}/{urlunsplit(('', '', os.path.join(ASSET_DIR_NAME, new_filename), query, ''))}"`. -/
def localRef (basePath fname query : Str) : Str :=
  basePath ++ '/' :: urlunsplit ⟨[], [], assetDirName ++ '/' :: fname, query, []⟩

/-- The absolute URL a locator resolves to: `urljoin(base_url, unquote(asset_url))`. -/
def resolvedUrl (base_url asset_url : Str) : Str := urljoin base_url (unquote asset_url)

/-- Path component (query excluded) of the resolved URL. -/
def resolvedPath (base_url asset_url : Str) : Str := (urlsplit (resolvedUrl base_url asset_url)).path

/-- Query component of the resolved URL. -/
def resolvedQuery (base_url asset_url : Str) : Str := (urlsplit (resolvedUrl base_url asset_url)).query

/-- The cached filename a locator maps to. -/
def fnameOf (base_url asset_url : Str) : Str := assetFilename (resolvedPath base_url asset_url)

/-- Model of `download_and_replace_asset(asset_url, base_url, assets_dir)`.
`net` is the transport, `basePath` the `BASE_URL` configuration; the
returned string replaces the locator in markup. -/
def download_and_replace_asset (net : Net) (basePath : Str) (asset_url base_url : Str)
    (s : St) : Str × St :=
  if asset_url = [] ∨ (strL ("data:")).isPrefixOf asset_url then (asset_url, s)
  else
    let au := unquote asset_url
    let full_url := urljoin base_url au
    let parsed := urlsplit full_url
    let new_filename := assetFilename parsed.path
    if new_filename ∈ s.store.map Prod.fst then
      (localRef basePath new_filename parsed.query, s)
    else
      let resp := net full_url
      let s1 : St := ⟨s.store, s.trace ++ [Ev.fetch full_url]⟩
      if resp.1 = 200 then
        (localRef basePath new_filename parsed.query,
         ⟨(new_filename, resp.2) :: s1.store, s1.trace ++ [Ev.write new_filename]⟩)
      else (au, s1)

/-- Does the inner value of a `url("...")` match start with one of the
three rewritten prefixes (`url.startswith(("http://", "https://", "//"))`)? -/
def qualifies (u : Str) : Bool :=
  (strL ("http://")).isPrefixOf u ∨ (strL ("https://")).isPrefixOf u ∨ (strL ("//")).isPrefixOf u

def urlPat : Str := strL ("url(\"")

def closePat : Str := ['"', ')']

/-- The non-greedy tail of the regex `url\("(.*?)"\)`: find the first
`")` (with `.` never consuming a newline); returns the inner group and
the remainder after the match, or `none` when the pattern cannot close. -/
def findClose : Str → Option (Str × Str)
  | [] => none
  | c :: rest =>
    if c = '"' ∧ rest.headD ' ' = ')' then some ([], rest.tail)
    else if c = '\n' then none
    else (findClose rest).map (fun p => (c :: p.1, p.2))

/-- Left-to-right scan of `re.sub(r"url\(\"(.*?)\"\)", replace_url, style)`
where `replace_url` rewrites qualifying inner values through `r` and
returns the whole match unchanged otherwise.  `fuel` bounds recursion
(every step consumes at least one character, so `style.length` is enough). -/
def scanStyle (r : Str → St → Str × St) : Nat → Str → St → Str × St
  | 0, l, s => (l, s)
  | _ + 1, [], s => ([], s)
  | fuel + 1, c :: cs, s =>
    if urlPat.isPrefixOf (c :: cs) then
      match findClose ((c :: cs).drop 5) with
      | some (inner, rest) =>
        let m :=
          if qualifies inner then
            let r0 := r inner s
            (urlPat ++ r0.1 ++ closePat, r0.2)
          else (urlPat ++ inner ++ closePat, s)
        let t := scanStyle r fuel rest m.2
        (m.1 ++ t.1, t.2)
      | none =>
        let t := scanStyle r fuel cs s
        (c :: t.1, t.2)
    else
      let t := scanStyle r fuel cs s
      (c :: t.1, t.2)

/-- Model of `process_style_attribute(style, base_url, assets_dir)`. -/
def process_style_attribute (net : Net) (basePath : Str) (base_url : Str) (style : Str)
    (s : St) : Str × St :=
  scanStyle (fun u st => download_and_replace_asset net basePath u base_url st) style.length style s

/-- `attr.lower().endswith("url")`. -/
def endsUrl (name : Str) : Bool := (strL ("url")).isSuffixOf (lowerStr name)

/-- `attr.lower().endswith("urls")`. -/
def endsUrls (name : Str) : Bool := (strL ("urls")).isSuffixOf (lowerStr name)

/-- Thread the state through a list, left to right (the sequential,
single-threaded processing of the script). -/
def mapState (f : α → St → β × St) : List α → St → List β × St
  | [], s => ([], s)
  | a :: as, s =>
    let b := f a s
    let bs := mapState f as b.2
    (b.1 :: bs.1, bs.2)

/-- `", ".join(new_values)`. -/
def joinCS (vs : List Str) : Str := List.intercalate (strL (", ")) vs

/-- The body of the per-attribute loop of `download_page`: a name ending
in `url` is resolved as one locator; a name ending in `urls` is split on
commas, each piece stripped and resolved, and rejoined with `", "`;
anything else is left alone. -/
def processAttrPair (net : Net) (basePath base_url : Str) (p : Str × Str) (s : St) :
    (Str × Str) × St :=
  if endsUrl p.1 then
    let r := download_and_replace_asset net basePath p.2 base_url s
    ((p.1, r.1), r.2)
  else if endsUrls p.1 then
    let r := mapState
      (fun au st => download_and_replace_asset net basePath (stripStr au) base_url st)
      (splitAll ',' p.2) s
    ((p.1, joinCS r.1), r.2)
  else (p, s)

/-- First value bound to key `k` (Python dict access on parsed attrs). -/
def lookupA (k : Str) : List (Str × Str) → Option Str
  | [] => none
  | p :: rest => if p.1 = k then some p.2 else lookupA k rest

/-- Replace the value at key `k` (Python dict assignment to an existing key). -/
def updateA (k v : Str) : List (Str × Str) → List (Str × Str)
  | [] => []
  | p :: rest => if p.1 = k then (k, v) :: rest else p :: updateA k v rest

/-- `del tag["integrity"]` / `del tag["crossorigin"]`. -/
def dropIntegrity (attrs : List (Str × Str)) : List (Str × Str) :=
  attrs.filter (fun p => p.1 != strL ("integrity") && p.1 != strL ("crossorigin"))

/-- The style step: if a `style` attribute is present, replace it with the
result of `process_style_attribute`. -/
def processStylePhase (net : Net) (basePath base_url : Str) (attrs : List (Str × Str))
    (s : St) : List (Str × Str) × St :=
  match lookupA (strL ("style")) attrs with
  | none => (attrs, s)
  | some v =>
    let r := process_style_attribute net basePath base_url v s
    (updateA (strL ("style")) r.1 attrs, r.2)

/-- The `for attr, value in tag.attrs.items()` loop. -/
def attrLoop (net : Net) (basePath base_url : Str) (attrs : List (Str × Str)) (s : St) :
    List (Str × Str) × St :=
  mapState (processAttrPair net basePath base_url) attrs s

def mediaTags : List Str := [strL ("img"), strL ("script"), strL ("source")]

/-- The fixed-attribute step: `src` on `img`/`script`/`source`, else
(`elif`) `href` on `link`. -/
def srcHrefPhase (net : Net) (basePath base_url : Str) (name : Str)
    (attrs : List (Str × Str)) (s : St) : List (Str × Str) × St :=
  match (if name ∈ mediaTags then lookupA (strL ("src")) attrs else none) with
  | some v =>
    let r := download_and_replace_asset net basePath v base_url s
    (updateA (strL ("src")) r.1 attrs, r.2)
  | none =>
    match (if name = strL ("link") then lookupA (strL ("href")) attrs else none) with
    | some v =>
      let r := download_and_replace_asset net basePath v base_url s
      (updateA (strL ("href")) r.1 attrs, r.2)
    | none => (attrs, s)

/-- Everything `download_page` does to one element's attributes before the
fixed `src`/`href` step: attribute deletions, the style rewrite, and the
suffix-matched attribute loop. -/
def preSrcPhases (net : Net) (basePath base_url : Str) (attrs : List (Str × Str))
    (s : St) : List (Str × Str) × St :=
  let r2 := processStylePhase net basePath base_url (dropIntegrity attrs) s
  attrLoop net basePath base_url r2.1 r2.2

/-- The whole per-element body of the `for tag in soup.find_all()` loop. -/
def processTag (net : Net) (basePath base_url : Str) (name : Str)
    (attrs : List (Str × Str)) (s : St) : List (Str × Str) × St :=
  let r := preSrcPhases net basePath base_url attrs s
  srcHrefPhase net basePath base_url name r.1 r.2

/-- An element: tag name and attribute list.  The parsed document is
modelled by its element sequence in document order (`soup.find_all()`);
the rewriter only mutates attributes, so tree shape plays no role in the
claims. -/
abbrev Elem := Str × List (Str × Str)

def i18nId : Str := strL ("i18nWebflowScript")

/-- `soup.find(id="i18nWebflowScript")` followed by `.decompose()`:
remove the first element carrying that id (removal of its descendants is
elided by the flat document model). -/
def removeI18n : List Elem → List Elem
  | [] => []
  | e :: rest => if lookupA (strL ("id")) e.2 = some i18nId then rest else e :: removeI18n rest

/-- The full per-element walk. -/
def walkDoc (net : Net) (basePath base_url : Str) (doc : List Elem) (s : St) :
    List Elem × St :=
  mapState (fun e st =>
    let r := processTag net basePath base_url e.1 e.2 st
    ((e.1, r.1), r.2)) doc s

/-- Model of `download_page(url)`.  `pageNet` is the transport for the
page markup itself: an exception (`.error`) aborts the run before any
rewriting, and the output markup is written exactly once, at the end.
The first component is the serialized output (`none` when the run
aborted fatally). -/
def download_page (pageNet : Str → Except Unit (List Elem)) (net : Net) (basePath : Str)
    (url : Str) : Option (List Elem) × St :=
  match pageNet url with
  | .error _ => (none, ⟨[], [Ev.pageFetch url]⟩)
  | .ok doc =>
    let r := walkDoc net basePath url (removeI18n doc) ⟨[], [Ev.pageFetch url]⟩
    (some r.1, ⟨r.2.store, r.2.trace ++ [Ev.output]⟩)

/-- Number of asset fetches in a trace. -/
def fetchCount (t : List Ev) : Nat :=
  (t.filter (fun e => match e with | Ev.fetch _ => true | _ => false)).length

/-- The query string the locator itself carries, before any decoding or
resolution: the part after its first `?`. -/
def locatorQuery (loc : Str) : Str := (splitOnce '?' loc).2

/-- The Local Reference as the spec's words for claim C3 describe it:
base path, asset directory, cached filename, and the locator's own
pre-resolution query string re-appended.  Stated for comparison with
what `download_and_replace_asset` actually returns. -/
def specLocalRef (basePath fname loc : Str) : Str :=
  basePath ++ '/' :: assetDirName ++ '/' :: fname ++
    (if locatorQuery loc = [] then [] else '?' :: locatorQuery loc)

/-! Concrete fixtures used by witnesses and counterexamples. -/

def netOk : Net := fun _ => (200, strL ("BYTES"))

def net404 : Net := fun _ => (404, [])

def st0 : St := ⟨[], []⟩

def basePath0 : Str := strL ("/base")

def baseUrl0 : Str := strL ("http://e.com/")

def pageNetErr : Str → Except Unit (List Elem) := fun _ => Except.error ()

/-- A locator that is neither empty nor a `data:` URL (the guard of
`download_and_replace_asset`). -/
def okLocator (loc : Str) : Prop :=
  ¬(loc = [] ∨ (strL ("data:")).isPrefixOf loc = true)

instance (loc : Str) : Decidable (okLocator loc) := by
  unfold okLocator; infer_instance

/-- The state `s'` extends `s` by appending trace events, none of which
is the output-markup write. -/
def traceExt (s s' : St) : Prop :=
  ∃ l, s'.trace = s.trace ++ l ∧ Ev.output ∉ l

/-- No occurrence of the opening pattern `url("` starts inside `l` (even
one that would continue past `l`'s end into following text). -/
def noPatIn (l : Str) : Prop :=
  ∀ i, i < l.length → urlPat.isPrefixOf ((l ++ urlPat).drop i) = false

instance (l : Str) : Decidable (noPatIn l) := by
  unfold noPatIn
  infer_instance

/-- No occurrence of the closing pattern `")` inside `inner`. -/
def noCloseIn (inner : Str) : Prop :=
  ∀ i, i < inner.length → closePat.isPrefixOf (inner.drop i) = false

instance (inner : Str) : Decidable (noCloseIn inner) := by
  unfold noCloseIn
  infer_instance

/-- Canonical unfolding of `download_and_replace_asset` past its guard:
cached hit, successful fetch, and failed fetch. -/
theorem dara_eq (net : Net) (basePath loc base_url : Str) (s : St) (h : okLocator loc) :
    download_and_replace_asset net basePath loc base_url s =
      if fnameOf base_url loc ∈ s.store.map Prod.fst then
        (localRef basePath (fnameOf base_url loc) (resolvedQuery base_url loc), s)
      else if (net (resolvedUrl base_url loc)).1 = 200 then
        (localRef basePath (fnameOf base_url loc) (resolvedQuery base_url loc),
         ⟨(fnameOf base_url loc, (net (resolvedUrl base_url loc)).2) :: s.store,
          s.trace ++ [Ev.fetch (resolvedUrl base_url loc), Ev.write (fnameOf base_url loc)]⟩)
      else (unquote loc, ⟨s.store, s.trace ++ [Ev.fetch (resolvedUrl base_url loc)]⟩) := by
  simp only [download_and_replace_asset, if_neg h, fnameOf, resolvedPath, resolvedUrl,
    resolvedQuery]
  split
  · rfl
  · split
    · simp [List.append_assoc]
    · rfl

/-- The Local Reference, written out: base path, `/`, asset directory,
`/`, filename, and the query re-appended when non-empty. -/
theorem localRef_eq (basePath fname q : Str) :
    localRef basePath fname q =
      basePath ++ '/' :: assetDirName ++ '/' :: fname ++
        (if q = [] then [] else '?' :: q) := by
  cases q with
  | nil => simp [localRef, urlunsplit, assetDirName, strL, List.isPrefixOf]
  | cons c cs => simp [localRef, urlunsplit, assetDirName, strL, List.isPrefixOf]

/-- C6: an empty or `data:` locator is returned unchanged, with no
network access and no file creation (the state is untouched). -/
theorem C6_data_passthrough (net : Net) (basePath base_url loc : Str) (s : St)
    (h : loc = [] ∨ (strL ("data:")).isPrefixOf loc = true) :
    download_and_replace_asset net basePath loc base_url s = (loc, s) := by
  simp only [download_and_replace_asset]
  rw [if_pos h]

theorem C6_witness :
    ((strL ("data:image/png;base64,AAAA") = ([] : Str) ∨
      (strL ("data:")).isPrefixOf (strL ("data:image/png;base64,AAAA")) = true)) ∧
    download_and_replace_asset netOk basePath0 (strL ("data:image/png;base64,AAAA"))
      baseUrl0 st0 = (strL ("data:image/png;base64,AAAA"), st0) :=
  ⟨by decide, C6_data_passthrough netOk basePath0 baseUrl0 (strL ("data:image/png;base64,AAAA"))
    st0 (by decide)⟩

set_option maxRecDepth 100000 in
/-- C2 as stated fails: on a non-200 response the function returns the
*percent-decoded* locator, which differs from the input byte-for-byte
when the input carries an escape.  Locator `a%20b.png` against a 404
transport comes back as `a b.png`. -/
theorem C2_counterexample :
    okLocator (strL ("a%20b.png")) ∧
    (net404 (resolvedUrl baseUrl0 (strL ("a%20b.png")))).1 ≠ 200 ∧
    (download_and_replace_asset net404 basePath0 (strL ("a%20b.png")) baseUrl0 st0).1 ≠
      strL ("a%20b.png") ∧
    (download_and_replace_asset net404 basePath0 (strL ("a%20b.png")) baseUrl0 st0).2.store =
      st0.store := by
  refine ⟨by decide, by decide, ?_, ?_⟩ <;> decide

/-- C2 amended: on a non-200 response no file is created, the state is
unchanged apart from the logged fetch, and the *percent-decoded* locator
(equal to the input whenever it contains no percent-escape) is returned;
the surrounding pipeline continues. -/
theorem C2_failed_fetch (net : Net) (basePath loc base_url : Str) (s : St)
    (h : okLocator loc)
    (hnotin : fnameOf base_url loc ∉ s.store.map Prod.fst)
    (hst : (net (resolvedUrl base_url loc)).1 ≠ 200) :
    download_and_replace_asset net basePath loc base_url s =
      (unquote loc, ⟨s.store, s.trace ++ [Ev.fetch (resolvedUrl base_url loc)]⟩) := by
  rw [dara_eq net basePath loc base_url s h, if_neg hnotin, if_neg hst]

set_option maxRecDepth 100000 in
theorem C2_witness :
    okLocator (strL ("a%20b.png")) ∧
    fnameOf baseUrl0 (strL ("a%20b.png")) ∉ st0.store.map Prod.fst ∧
    (net404 (resolvedUrl baseUrl0 (strL ("a%20b.png")))).1 ≠ 200 ∧
    download_and_replace_asset net404 basePath0 (strL ("a%20b.png")) baseUrl0 st0 =
      (unquote (strL ("a%20b.png")),
       ⟨st0.store, st0.trace ++ [Ev.fetch (resolvedUrl baseUrl0 (strL ("a%20b.png")))]⟩) :=
  ⟨by decide, by decide, by decide,
   C2_failed_fetch net404 basePath0 (strL ("a%20b.png")) baseUrl0 st0 (by decide) (by decide)
     (by decide)⟩

set_option maxRecDepth 1000000 in
/-- C3 as stated fails: the query re-appended to the Local Reference is
the query of the percent-decoded, resolved URL, not the locator's own
pre-resolution query string.  Locator `logo.png%3Fv%3D3` contains no `?`
(its own query string is empty), yet its Local Reference ends in `?v=3`. -/
theorem C3_counterexample :
    okLocator (strL ("logo.png%3Fv%3D3")) ∧
    (netOk (resolvedUrl baseUrl0 (strL ("logo.png%3Fv%3D3")))).1 = 200 ∧
    locatorQuery (strL ("logo.png%3Fv%3D3")) = [] ∧
    (download_and_replace_asset netOk basePath0 (strL ("logo.png%3Fv%3D3")) baseUrl0 st0).1 ≠
      specLocalRef basePath0 (fnameOf baseUrl0 (strL ("logo.png%3Fv%3D3")))
        (strL ("logo.png%3Fv%3D3")) := by
  refine ⟨by decide, by decide, by decide, ?_⟩
  decide

/-- C3 amended: for every locator the function rewrites, the Local
Reference is base path + `/` + asset directory + `/` + cached filename,
with the query string of the *resolved* absolute URL re-appended (for a
locator with its own literal query string, e.g. `?v=3`, this is that
query string). -/
theorem C3_local_reference (net : Net) (basePath loc base_url : Str) (s : St)
    (h : okLocator loc)
    (hrw : fnameOf base_url loc ∈ s.store.map Prod.fst ∨
      (net (resolvedUrl base_url loc)).1 = 200) :
    (download_and_replace_asset net basePath loc base_url s).1 =
      basePath ++ '/' :: assetDirName ++ '/' :: fnameOf base_url loc ++
        (if resolvedQuery base_url loc = [] then [] else '?' :: resolvedQuery base_url loc) := by
  rw [dara_eq net basePath loc base_url s h]
  rcases hrw with hin | hok
  · rw [if_pos hin, localRef_eq]
  · by_cases hin : fnameOf base_url loc ∈ s.store.map Prod.fst
    · rw [if_pos hin, localRef_eq]
    · rw [if_neg hin, if_pos hok, localRef_eq]

set_option maxRecDepth 100000 in
theorem C3_witness :
    okLocator (strL ("x.png?v=3")) ∧
    (netOk (resolvedUrl baseUrl0 (strL ("x.png?v=3")))).1 = 200 ∧
    resolvedQuery baseUrl0 (strL ("x.png?v=3")) = strL ("v=3") ∧
    (download_and_replace_asset netOk basePath0 (strL ("x.png?v=3")) baseUrl0 st0).1 =
      basePath0 ++ '/' :: assetDirName ++ '/' :: fnameOf baseUrl0 (strL ("x.png?v=3")) ++
        (if resolvedQuery baseUrl0 (strL ("x.png?v=3")) = [] then []
         else '?' :: resolvedQuery baseUrl0 (strL ("x.png?v=3"))) :=
  ⟨by decide, by decide, by decide,
   C3_local_reference netOk basePath0 (strL ("x.png?v=3")) baseUrl0 st0 (by decide)
     (Or.inr (by decide))⟩

theorem fetchCount_append (t l : List Ev) :
    fetchCount (t ++ l) = fetchCount t + fetchCount l := by
  simp [fetchCount, List.filter_append]

/-- C1 as stated fails: when the first fetch returns non-200, no file is
created, so a second resolve of the very same locator fetches again —
two network fetches combined, not at most one. -/
theorem C1_counterexample :
    okLocator (strL ("a.png")) ∧
    resolvedPath baseUrl0 (strL ("a.png")) = resolvedPath baseUrl0 (strL ("a.png")) ∧
    fetchCount ((download_and_replace_asset net404 basePath0 (strL ("a.png")) baseUrl0
      (download_and_replace_asset net404 basePath0 (strL ("a.png")) baseUrl0 st0).2).2.trace) = 2 := by
  refine ⟨by decide, rfl, ?_⟩
  decide

/-- C1 amended: two locators with the same resolved path map to the same
cached filename; resolving one and then the other triggers at most one
network fetch combined *provided the first fetch succeeds* (a non-200
first fetch creates no file, so the second occurrence fetches again);
and once a file with that name is in the store, a resolve of any locator
with that path performs no network access and leaves the store — in
particular the existing file — unchanged. -/
theorem C1_idempotent_caching (net : Net) (basePath base_url L1 L2 : Str) (s : St)
    (h1 : okLocator L1) (h2 : okLocator L2)
    (hpath : resolvedPath base_url L1 = resolvedPath base_url L2)
    (hok : (net (resolvedUrl base_url L1)).1 = 200) :
    fnameOf base_url L1 = fnameOf base_url L2 ∧
    fetchCount ((download_and_replace_asset net basePath L2 base_url
        (download_and_replace_asset net basePath L1 base_url s).2).2.trace) ≤
      fetchCount s.trace + 1 ∧
    (∀ s' : St, fnameOf base_url L2 ∈ s'.store.map Prod.fst →
      download_and_replace_asset net basePath L2 base_url s' =
        (localRef basePath (fnameOf base_url L2) (resolvedQuery base_url L2), s')) := by
  have hfn : fnameOf base_url L1 = fnameOf base_url L2 := by
    unfold fnameOf
    rw [hpath]
  refine ⟨hfn, ?_, fun s' hin => by rw [dara_eq net basePath L2 base_url s' h2, if_pos hin]⟩
  by_cases hin : fnameOf base_url L1 ∈ s.store.map Prod.fst
  · rw [dara_eq net basePath L1 base_url s h1, if_pos hin,
      dara_eq net basePath L2 base_url s h2, if_pos (hfn ▸ hin)]
    simp
  · rw [dara_eq net basePath L1 base_url s h1, if_neg hin, if_pos hok,
      dara_eq net basePath L2 base_url _ h2, if_pos (by simp [← hfn])]
    have h1' : fetchCount [Ev.fetch (resolvedUrl base_url L1), Ev.write (fnameOf base_url L1)] = 1 :=
      rfl
    simp [fetchCount_append, h1']

set_option maxRecDepth 100000 in
theorem C1_witness :
    okLocator (strL ("a.png?v=1")) ∧ okLocator (strL ("a.png?v=2")) ∧
    resolvedPath baseUrl0 (strL ("a.png?v=1")) = resolvedPath baseUrl0 (strL ("a.png?v=2")) ∧
    (netOk (resolvedUrl baseUrl0 (strL ("a.png?v=1")))).1 = 200 ∧
    (fnameOf baseUrl0 (strL ("a.png?v=1")) = fnameOf baseUrl0 (strL ("a.png?v=2")) ∧
     fetchCount ((download_and_replace_asset netOk basePath0 (strL ("a.png?v=2")) baseUrl0
         (download_and_replace_asset netOk basePath0 (strL ("a.png?v=1")) baseUrl0 st0).2).2.trace) ≤
       fetchCount st0.trace + 1 ∧
     (∀ s' : St, fnameOf baseUrl0 (strL ("a.png?v=2")) ∈ s'.store.map Prod.fst →
       download_and_replace_asset netOk basePath0 (strL ("a.png?v=2")) baseUrl0 s' =
         (localRef basePath0 (fnameOf baseUrl0 (strL ("a.png?v=2")))
           (resolvedQuery baseUrl0 (strL ("a.png?v=2"))), s'))) :=
  ⟨by decide, by decide, by decide, by decide,
   C1_idempotent_caching netOk basePath0 baseUrl0 (strL ("a.png?v=1")) (strL ("a.png?v=2")) st0
     (by decide) (by decide) (by decide) (by decide)⟩

theorem md5Bytes_length (m : List Nat) : (md5Bytes m).length = 16 := by
  simp [md5Bytes, leBytes]

theorem hexOfBytes_length (bs : List Nat) : (hexOfBytes bs).length = 2 * bs.length := by
  induction bs with
  | nil => simp [hexOfBytes, catMap]
  | cons b rest ih => simp [hexOfBytes, catMap] at ih ⊢; omega

theorem md5hex_length (p : Str) : (md5hex p).length = 32 := by
  simp [md5hex, hexOfBytes_length, md5Bytes_length]

theorem hexCharOf_mem (n : Nat) : hexCharOf n ∈ hexDigitsL := by
  have hlen : hexDigitsL.length = 16 := by decide
  have h : n % 16 < hexDigitsL.length := by
    rw [hlen]
    exact Nat.mod_lt _ (by norm_num)
  rw [hexCharOf, List.getD_eq_getElem hexDigitsL '0' h]
  exact List.getElem_mem h

theorem hexOfBytes_mem : ∀ (bs : List Nat) (c : Char), c ∈ hexOfBytes bs → c ∈ hexDigitsL := by
  intro bs
  induction bs with
  | nil => intro c hc; simp [hexOfBytes, catMap] at hc
  | cons b rest ih =>
    intro c hc
    rw [show hexOfBytes (b :: rest) =
      [hexCharOf (b / 16), hexCharOf (b % 16)] ++ hexOfBytes rest from rfl] at hc
    rcases List.mem_append.mp hc with h | h
    · rcases List.mem_cons.mp h with h1 | h1
      · exact h1 ▸ hexCharOf_mem _
      · rcases List.mem_cons.mp h1 with h2 | h2
        · exact h2 ▸ hexCharOf_mem _
        · simp at h2
    · exact ih c h

/-- C7: when a locator is cached, the created file's name is the first 10
characters of the (hexadecimal) MD5 digest of the resolved URL's path —
10 characters long, all hex digits — followed by the path's extension,
or `.bin` when the path has none. -/
theorem C7_filename_shape (net : Net) (basePath loc base_url : Str) (s : St)
    (h : okLocator loc)
    (hnotin : fnameOf base_url loc ∉ s.store.map Prod.fst)
    (hok : (net (resolvedUrl base_url loc)).1 = 200) :
    (download_and_replace_asset net basePath loc base_url s).2.store =
      (fnameOf base_url loc, (net (resolvedUrl base_url loc)).2) :: s.store ∧
    fnameOf base_url loc =
      (md5hex (resolvedPath base_url loc)).take 10 ++
        (if extOf (resolvedPath base_url loc) = [] then strL (".bin")
         else extOf (resolvedPath base_url loc)) ∧
    ((md5hex (resolvedPath base_url loc)).take 10).length = 10 ∧
    (∀ c ∈ (md5hex (resolvedPath base_url loc)).take 10, c ∈ hexDigitsL) := by
  refine ⟨?_, rfl, ?_, ?_⟩
  · rw [dara_eq net basePath loc base_url s h, if_neg hnotin, if_pos hok]
  · simp [List.length_take, md5hex_length]
  · intro c hc
    exact hexOfBytes_mem _ c (List.take_subset _ _ hc)

set_option maxRecDepth 100000 in
theorem C7_witness :
    okLocator (strL ("style.css")) ∧
    fnameOf baseUrl0 (strL ("style.css")) ∉ st0.store.map Prod.fst ∧
    (netOk (resolvedUrl baseUrl0 (strL ("style.css")))).1 = 200 ∧
    ((download_and_replace_asset netOk basePath0 (strL ("style.css")) baseUrl0 st0).2.store =
      (fnameOf baseUrl0 (strL ("style.css")),
       (netOk (resolvedUrl baseUrl0 (strL ("style.css")))).2) :: st0.store ∧
     fnameOf baseUrl0 (strL ("style.css")) =
       (md5hex (resolvedPath baseUrl0 (strL ("style.css")))).take 10 ++
         (if extOf (resolvedPath baseUrl0 (strL ("style.css"))) = [] then strL (".bin")
          else extOf (resolvedPath baseUrl0 (strL ("style.css")))) ∧
     ((md5hex (resolvedPath baseUrl0 (strL ("style.css")))).take 10).length = 10 ∧
     (∀ c ∈ (md5hex (resolvedPath baseUrl0 (strL ("style.css")))).take 10, c ∈ hexDigitsL)) :=
  ⟨by decide, by decide, by decide,
   C7_filename_shape netOk basePath0 (strL ("style.css")) baseUrl0 st0 (by decide) (by decide)
     (by decide)⟩

theorem mapState_append (f : α → St → β × St) (l1 l2 : List α) (s : St) :
    mapState f (l1 ++ l2) s =
      ((mapState f l1 s).1 ++ (mapState f l2 (mapState f l1 s).2).1,
       (mapState f l2 (mapState f l1 s).2).2) := by
  induction l1 generalizing s with
  | nil => simp [mapState]
  | cons a as ih => simp [mapState, ih]

/-- A name ending in `urls` does not satisfy `endswith("url")` (the last
characters differ), so the `elif` branch is the one that fires. -/
theorem endsUrl_false_of_endsUrls (a : Str) (h : endsUrls a = true) : endsUrl a = false := by
  unfold endsUrls at h
  unfold endsUrl
  rw [List.isSuffixOf] at h ⊢
  have e1 : (strL ("urls")).reverse = 's' :: strL ("lru") := by decide
  have e2 : (strL ("url")).reverse = 'l' :: strL ("ru") := by decide
  rw [e1] at h
  rw [e2]
  cases hr : (lowerStr a).reverse with
  | nil => rw [hr] at h; simp [List.isPrefixOf] at h
  | cons c cs =>
    rw [hr] at h
    simp only [List.isPrefixOf, Bool.and_eq_true, beq_iff_eq] at h
    obtain ⟨hc, -⟩ := h
    subst hc
    simp [List.isPrefixOf]

theorem lookupA_updateA_ne (k k' v : Str) (hne : k ≠ k') :
    ∀ l, lookupA k (updateA k' v l) = lookupA k l := by
  intro l
  induction l with
  | nil => rfl
  | cons p rest ih =>
    by_cases hp : p.1 = k'
    · simp [updateA, hp, lookupA, Ne.symm hne]
    · simp [updateA, hp, lookupA, ih]

theorem lookupA_updateA_self (k v : Str) :
    ∀ l, (lookupA k l).isSome → lookupA k (updateA k v l) = some v := by
  intro l
  induction l with
  | nil => intro h; simp [lookupA] at h
  | cons p rest ih =>
    intro h
    by_cases hp : p.1 = k
    · simp [updateA, hp, lookupA]
    · simp only [updateA, if_neg hp] at h ⊢
      simp only [lookupA, if_neg hp] at h ⊢
      exact ih h

theorem lookupA_dropIntegrity (k : Str) (h1 : k ≠ strL ("integrity"))
    (h2 : k ≠ strL ("crossorigin")) :
    ∀ l, lookupA k (dropIntegrity l) = lookupA k l := by
  intro l
  induction l with
  | nil => rfl
  | cons p rest ih =>
    simp only [dropIntegrity] at ih ⊢
    rw [List.filter_cons]
    by_cases hf : (p.1 != strL ("integrity") && p.1 != strL ("crossorigin")) = true
    · rw [if_pos hf]
      by_cases hp : p.1 = k
      · simp [lookupA, hp]
      · simp only [lookupA, if_neg hp]
        exact ih
    · rw [if_neg hf]
      have hp : p.1 ≠ k := by
        intro he
        apply hf
        simp [bne_iff_ne, he, h1, h2]
      simp only [lookupA, if_neg hp]
      exact ih

theorem lookupA_stylePhase (net : Net) (bp bu k : Str) (hk : k ≠ strL ("style"))
    (l : List (Str × Str)) (s : St) :
    lookupA k (processStylePhase net bp bu l s).1 = lookupA k l := by
  unfold processStylePhase
  cases h : lookupA (strL ("style")) l with
  | none => rfl
  | some v => exact lookupA_updateA_ne k (strL ("style")) _ hk l

theorem lookupA_attrLoop (net : Net) (bp bu k : Str) (hu : endsUrl k = false)
    (hus : endsUrls k = false) :
    ∀ (l : List (Str × Str)) (s : St), lookupA k (attrLoop net bp bu l s).1 = lookupA k l := by
  intro l
  induction l with
  | nil => intro s; rfl
  | cons p rest ih =>
    intro s
    simp only [attrLoop, mapState] at ih ⊢
    by_cases hp : p.1 = k
    · have hpp : processAttrPair net bp bu p s = (p, s) := by
        unfold processAttrPair
        rw [if_neg (by simp [hp, hu]), if_neg (by simp [hp, hus])]
      rw [hpp]
      simp only [lookupA, if_pos hp]
    · have hkey : ((processAttrPair net bp bu p s).1).1 = p.1 := by
        unfold processAttrPair
        split_ifs <;> rfl
      simp only [lookupA, hkey, if_neg hp]
      exact ih _

theorem lookupA_srcHref_frame (net : Net) (bp bu name a : Str)
    (hns : ¬(name ∈ mediaTags ∧ a = strL ("src")))
    (hnh : ¬(name = strL ("link") ∧ a = strL ("href")))
    (l : List (Str × Str)) (s : St) :
    lookupA a (srcHrefPhase net bp bu name l s).1 = lookupA a l := by
  unfold srcHrefPhase
  by_cases hm : name ∈ mediaTags
  · rw [if_pos hm]
    cases hsrc : lookupA (strL ("src")) l with
    | none =>
      by_cases hl : name = strL ("link")
      · exact absurd (hl ▸ hm) (by decide)
      · rw [if_neg hl]
    | some v => exact lookupA_updateA_ne a (strL ("src")) _ (fun he => hns ⟨hm, he⟩) l
  · rw [if_neg hm]
    by_cases hl : name = strL ("link")
    · rw [if_pos hl]
      cases hsrc : lookupA (strL ("href")) l with
      | none => rfl
      | some v => exact lookupA_updateA_ne a (strL ("href")) _ (fun he => hnh ⟨hl, he⟩) l
    · rw [if_neg hl]

/-- C5: an attribute whose name case-insensitively ends in `urls` has its
value split on commas, each piece stripped of whitespace and resolved
independently, and the results rejoined with `", "`; an attribute whose
name ends in `url` (no `s`) is resolved as one single locator.  Stated
over an arbitrary position inside the element's attribute list, with the
state threaded in document order. -/
theorem C5_url_suffix_attrs (net : Net) (bp bu : Str) (l1 : List (Str × Str)) (a v : Str)
    (l2 : List (Str × Str)) (s : St) :
    (endsUrls a = true →
      attrLoop net bp bu (l1 ++ (a, v) :: l2) s =
        (let r1 := attrLoop net bp bu l1 s
         let rv := mapState (fun au st => download_and_replace_asset net bp (stripStr au) bu st)
           (splitAll ',' v) r1.2
         let r2 := attrLoop net bp bu l2 rv.2
         (r1.1 ++ (a, joinCS rv.1) :: r2.1, r2.2))) ∧
    (endsUrl a = true →
      attrLoop net bp bu (l1 ++ (a, v) :: l2) s =
        (let r1 := attrLoop net bp bu l1 s
         let rv := download_and_replace_asset net bp v bu r1.2
         let r2 := attrLoop net bp bu l2 rv.2
         (r1.1 ++ (a, rv.1) :: r2.1, r2.2))) := by
  constructor
  · intro h
    have hu := endsUrl_false_of_endsUrls a h
    simp only [attrLoop]
    rw [mapState_append]
    simp only [mapState, processAttrPair]
    rw [if_neg (by simp [hu]), if_pos (by simp [h])]
  · intro h
    simp only [attrLoop]
    rw [mapState_append]
    simp only [mapState, processAttrPair]
    rw [if_pos (by simp [h])]

set_option maxRecDepth 1000000 in
theorem C5_witness :
    endsUrls (strL ("data-urls")) = true ∧
    attrLoop netOk basePath0 baseUrl0
        ([] ++ (strL ("data-urls"), strL ("https://a.com/1.png, https://a.com/2.png")) :: []) st0 =
      (let r1 := attrLoop netOk basePath0 baseUrl0 [] st0
       let rv := mapState
         (fun au st => download_and_replace_asset netOk basePath0 (stripStr au) baseUrl0 st)
         (splitAll ',' (strL ("https://a.com/1.png, https://a.com/2.png"))) r1.2
       let r2 := attrLoop netOk basePath0 baseUrl0 [] rv.2
       (r1.1 ++ (strL ("data-urls"), joinCS rv.1) :: r2.1, r2.2)) :=
  ⟨by decide,
   (C5_url_suffix_attrs netOk basePath0 baseUrl0 [] (strL ("data-urls"))
     (strL ("https://a.com/1.png, https://a.com/2.png")) [] st0).1 (by decide)⟩

/-- C8: on `img`/`script`/`source` elements a `src` attribute is
replaced by the resolve of its (original) value, and on `link` elements
an `href` attribute likewise — independently of the `url`/`urls` suffix
rules (which never match these names).  The resolve runs in the state
left by the earlier per-element phases. -/
theorem C8_src_href (net : Net) (bp bu name : Str) (attrs : List (Str × Str)) (s : St)
    (v : Str) :
    (name ∈ mediaTags →
      lookupA (strL ("src")) attrs = some v →
      lookupA (strL ("src")) ((processTag net bp bu name attrs s).1) =
        some ((download_and_replace_asset net bp v bu
          (preSrcPhases net bp bu attrs s).2).1)) ∧
    (name = strL ("link") →
      lookupA (strL ("href")) attrs = some v →
      lookupA (strL ("href")) ((processTag net bp bu name attrs s).1) =
        some ((download_and_replace_asset net bp v bu
          (preSrcPhases net bp bu attrs s).2).1)) := by
  constructor
  · intro hm hv
    have hfr : lookupA (strL ("src")) (preSrcPhases net bp bu attrs s).1 = some v := by
      simp only [preSrcPhases]
      rw [lookupA_attrLoop net bp bu _ (by decide) (by decide),
        lookupA_stylePhase net bp bu _ (by decide),
        lookupA_dropIntegrity _ (by decide) (by decide)]
      exact hv
    simp only [processTag, srcHrefPhase]
    rw [if_pos hm, hfr]
    exact lookupA_updateA_self _ _ _ (by rw [hfr]; rfl)
  · intro hl hv
    have hm : ¬ name ∈ mediaTags := by rw [hl]; decide
    have hfr : lookupA (strL ("href")) (preSrcPhases net bp bu attrs s).1 = some v := by
      simp only [preSrcPhases]
      rw [lookupA_attrLoop net bp bu _ (by decide) (by decide),
        lookupA_stylePhase net bp bu _ (by decide),
        lookupA_dropIntegrity _ (by decide) (by decide)]
      exact hv
    simp only [processTag, srcHrefPhase]
    rw [if_neg hm, if_pos hl, hfr]
    exact lookupA_updateA_self _ _ _ (by rw [hfr]; rfl)

theorem C8_witness :
    (strL ("img")) ∈ mediaTags ∧
    lookupA (strL ("src")) [(strL ("src"), strL ("pic.jpg"))] = some (strL ("pic.jpg")) ∧
    lookupA (strL ("src"))
        ((processTag netOk basePath0 baseUrl0 (strL ("img"))
          [(strL ("src"), strL ("pic.jpg"))] st0).1) =
      some ((download_and_replace_asset netOk basePath0 (strL ("pic.jpg")) baseUrl0
        (preSrcPhases netOk basePath0 baseUrl0 [(strL ("src"), strL ("pic.jpg"))] st0).2).1) :=
  ⟨by decide, by decide,
   (C8_src_href netOk basePath0 baseUrl0 (strL ("img")) [(strL ("src"), strL ("pic.jpg"))] st0
     (strL ("pic.jpg"))).1 (by decide) (by decide)⟩

/-- C10: the rewriter leaves unchanged every attribute whose name does
not end (case-insensitively) in `url` or `urls`, is not `style`,
`integrity` or `crossorigin`, and is not `src` on a media element or
`href` on a `link` element — in particular `href` on anchors and `src`
on `video`/`iframe` elements keep their original values. -/
theorem C10_untouched_attributes (net : Net) (bp bu name : Str) (attrs : List (Str × Str))
    (s : St) (a : Str)
    (hu : endsUrl a = false) (hus : endsUrls a = false)
    (hsty : a ≠ strL ("style")) (hint : a ≠ strL ("integrity"))
    (hcro : a ≠ strL ("crossorigin"))
    (hns : ¬(name ∈ mediaTags ∧ a = strL ("src")))
    (hnh : ¬(name = strL ("link") ∧ a = strL ("href"))) :
    lookupA a ((processTag net bp bu name attrs s).1) = lookupA a attrs := by
  simp only [processTag]
  rw [lookupA_srcHref_frame net bp bu name a hns hnh]
  simp only [preSrcPhases]
  rw [lookupA_attrLoop net bp bu a hu hus, lookupA_stylePhase net bp bu a hsty,
    lookupA_dropIntegrity a hint hcro]

theorem C10_witness :
    endsUrl (strL ("href")) = false ∧
    ¬((strL ("a")) ∈ mediaTags ∧ strL ("href") = strL ("src")) ∧
    lookupA (strL ("href"))
        ((processTag netOk basePath0 baseUrl0 (strL ("a"))
          [(strL ("href"), strL ("https://ext.com/page"))] st0).1) =
      lookupA (strL ("href")) [(strL ("href"), strL ("https://ext.com/page"))] :=
  ⟨by decide, by decide,
   C10_untouched_attributes netOk basePath0 baseUrl0 (strL ("a"))
     [(strL ("href"), strL ("https://ext.com/page"))] st0 (strL ("href"))
     (by decide) (by decide) (by decide) (by decide) (by decide) (by decide) (by decide)⟩

theorem traceExt_refl (s : St) : traceExt s s := ⟨[], by simp, by simp⟩

theorem traceExt_trans {s1 s2 s3 : St} (h1 : traceExt s1 s2) (h2 : traceExt s2 s3) :
    traceExt s1 s3 := by
  obtain ⟨l1, e1, n1⟩ := h1
  obtain ⟨l2, e2, n2⟩ := h2
  exact ⟨l1 ++ l2, by rw [e2, e1, List.append_assoc], by simp [n1, n2]⟩

theorem dara_traceExt (net : Net) (bp loc bu : Str) (s : St) :
    traceExt s (download_and_replace_asset net bp loc bu s).2 := by
  by_cases h : okLocator loc
  · rw [dara_eq net bp loc bu s h]
    split
    · exact traceExt_refl s
    · split
      · exact ⟨[Ev.fetch (resolvedUrl bu loc), Ev.write (fnameOf bu loc)], rfl, by simp⟩
      · exact ⟨[Ev.fetch (resolvedUrl bu loc)], rfl, by simp⟩
  · have h' : loc = [] ∨ (strL ("data:")).isPrefixOf loc = true := not_not.mp h
    simp only [download_and_replace_asset, if_pos h']
    exact traceExt_refl s

theorem scanStyle_traceExt (r : Str → St → Str × St) (hr : ∀ u s, traceExt s (r u s).2) :
    ∀ (fuel : Nat) (l : Str) (s : St), traceExt s (scanStyle r fuel l s).2 := by
  intro fuel
  induction fuel with
  | zero => intro l s; exact traceExt_refl s
  | succ n ih =>
    intro l s
    cases l with
    | nil => exact traceExt_refl s
    | cons c cs =>
      simp only [scanStyle]
      by_cases hpf : urlPat.isPrefixOf (c :: cs) = true
      · rw [if_pos hpf]
        cases hfc : findClose ((c :: cs).drop 5) with
        | none => simp only [hfc]; exact ih cs s
        | some p =>
          obtain ⟨inner, rest⟩ := p
          simp only [hfc]
          by_cases hq : qualifies inner = true
          · simp only [if_pos hq]
            exact traceExt_trans (hr inner s) (ih rest _)
          · simp only [if_neg hq]
            exact ih rest s
      · rw [if_neg hpf]
        exact ih cs s

theorem mapState_traceExt (f : α → St → β × St) (hf : ∀ a s, traceExt s (f a s).2) :
    ∀ (l : List α) (s : St), traceExt s (mapState f l s).2 := by
  intro l
  induction l with
  | nil => intro s; exact traceExt_refl s
  | cons a as ih => intro s; exact traceExt_trans (hf a s) (ih _)

theorem processAttrPair_traceExt (net : Net) (bp bu : Str) (p : Str × Str) (s : St) :
    traceExt s (processAttrPair net bp bu p s).2 := by
  unfold processAttrPair
  split_ifs with h1 h2
  · exact dara_traceExt net bp p.2 bu s
  · exact mapState_traceExt _ (fun a st => dara_traceExt net bp (stripStr a) bu st) _ s
  · exact traceExt_refl s

theorem stylePhase_traceExt (net : Net) (bp bu : Str) (l : List (Str × Str)) (s : St) :
    traceExt s (processStylePhase net bp bu l s).2 := by
  unfold processStylePhase
  cases lookupA (strL ("style")) l with
  | none => exact traceExt_refl s
  | some v =>
    exact scanStyle_traceExt _ (fun u st => dara_traceExt net bp u bu st) v.length v s

theorem srcHrefPhase_traceExt (net : Net) (bp bu name : Str) (l : List (Str × Str)) (s : St) :
    traceExt s (srcHrefPhase net bp bu name l s).2 := by
  unfold srcHrefPhase
  cases (if name ∈ mediaTags then lookupA (strL ("src")) l else none) with
  | some v => exact dara_traceExt net bp v bu s
  | none =>
    cases (if name = strL ("link") then lookupA (strL ("href")) l else none) with
    | some v => exact dara_traceExt net bp v bu s
    | none => exact traceExt_refl s

theorem processTag_traceExt (net : Net) (bp bu name : Str) (attrs : List (Str × Str)) (s : St) :
    traceExt s (processTag net bp bu name attrs s).2 := by
  unfold processTag preSrcPhases
  exact traceExt_trans (stylePhase_traceExt net bp bu _ s)
    (traceExt_trans
      (mapState_traceExt _ (fun p st => processAttrPair_traceExt net bp bu p st) _ _)
      (srcHrefPhase_traceExt net bp bu name _ _))

theorem walkDoc_traceExt (net : Net) (bp bu : Str) (doc : List Elem) (s : St) :
    traceExt s (walkDoc net bp bu doc s).2 := by
  unfold walkDoc
  exact mapState_traceExt
    (fun (e : Elem) st =>
      let r := processTag net bp bu e.1 e.2 st
      ((e.1, r.1), r.2))
    (fun e st => processTag_traceExt net bp bu e.1 e.2 st) doc s

/-- C9: a fatal failure fetching the page's markup yields no output at
all, and in every run the output-markup write happens at most once, as
the final event — never before or during rewriting. -/
theorem C9_output_written_once (pageNet : Str → Except Unit (List Elem)) (net : Net)
    (basePath url : Str) :
    (∀ e, pageNet url = Except.error e →
      (download_page pageNet net basePath url).1 = none ∧
      Ev.output ∉ (download_page pageNet net basePath url).2.trace) ∧
    (∀ doc, pageNet url = Except.ok doc →
      (download_page pageNet net basePath url).1 =
        some (walkDoc net basePath url (removeI18n doc) ⟨[], [Ev.pageFetch url]⟩).1 ∧
      ∃ t, (download_page pageNet net basePath url).2.trace = t ++ [Ev.output] ∧
        Ev.output ∉ t) := by
  constructor
  · intro e he
    have hred : download_page pageNet net basePath url = (none, ⟨[], [Ev.pageFetch url]⟩) := by
      unfold download_page
      rw [he]
    rw [hred]
    exact ⟨rfl, by simp⟩
  · intro doc hd
    have hred : download_page pageNet net basePath url =
        (some (walkDoc net basePath url (removeI18n doc) ⟨[], [Ev.pageFetch url]⟩).1,
         ⟨(walkDoc net basePath url (removeI18n doc) ⟨[], [Ev.pageFetch url]⟩).2.store,
          (walkDoc net basePath url (removeI18n doc) ⟨[], [Ev.pageFetch url]⟩).2.trace ++
            [Ev.output]⟩) := by
      unfold download_page
      rw [hd]
    rw [hred]
    refine ⟨rfl, ?_⟩
    obtain ⟨l, hl, hn⟩ :=
      walkDoc_traceExt net basePath url (removeI18n doc) ⟨[], [Ev.pageFetch url]⟩
    refine ⟨Ev.pageFetch url :: l, ?_, ?_⟩
    · rw [show (⟨[], [Ev.pageFetch url]⟩ : St).trace = [Ev.pageFetch url] from rfl] at hl
      rw [hl]
      simp
    · simp [hn]

theorem C9_witness :
    pageNetErr baseUrl0 = Except.error () ∧
    (download_page pageNetErr netOk basePath0 baseUrl0).1 = none ∧
    Ev.output ∉ (download_page pageNetErr netOk basePath0 baseUrl0).2.trace :=
  ⟨rfl, (C9_output_written_once pageNetErr netOk basePath0 baseUrl0).1 () rfl⟩

theorem eq_true_of_not_eq_false {b : Bool} (h : ¬ b = false) : b = true := by
  cases b
  · exact absurd rfl h
  · rfl

theorem isPrefixOf_of_append (P X Y : Str) (h : P.isPrefixOf (X ++ Y) = true)
    (hlen : P.length ≤ X.length) : P.isPrefixOf X = true := by
  rw [List.isPrefixOf_iff_prefix] at h ⊢
  have hP : P = (X ++ Y).take P.length := by
    obtain ⟨t, ht⟩ := h
    rw [← ht]
    simp [List.take_left]
  rw [List.take_append_of_le_length hlen] at hP
  rw [hP]
  exact List.take_prefix _ _

/-- The non-greedy close finder splits exactly at the first `")` when
`inner` contains neither a newline nor a `")`. -/
theorem findClose_append : ∀ (inner post : Str), '\n' ∉ inner → noCloseIn inner →
    findClose (inner ++ closePat ++ post) = some (inner, post) := by
  intro inner
  induction inner with
  | nil =>
    intro post _ _
    simp [findClose, closePat]
  | cons c cs ih =>
    intro post hnl hnc
    have hc1 : ¬(c = '"' ∧ ((cs ++ closePat ++ post) : Str).headD ' ' = ')') := by
      rintro ⟨hcq, hh⟩
      cases cs with
      | nil => simp [closePat] at hh
      | cons d ds =>
        have h0 := hnc 0 (by simp)
        rw [List.drop_zero] at h0
        simp only [List.cons_append, List.headD_cons] at hh
        subst hcq
        subst hh
        simp [closePat, List.isPrefixOf] at h0
    have hc2 : ¬ c = '\n' := fun h => hnl (h ▸ List.mem_cons_self c cs)
    have hcs : noCloseIn cs := by
      intro i hi
      have := hnc (i + 1) (by simp; omega)
      simpa [List.drop_succ_cons] using this
    show findClose (c :: (cs ++ closePat ++ post)) = some (c :: cs, post)
    simp only [findClose, if_neg hc1, if_neg hc2]
    rw [ih post (fun h => hnl (List.mem_cons_of_mem c h)) hcs]
    rfl

/-- A successful close decomposes the scanned text. -/
theorem findClose_decomp : ∀ (x inner rest : Str), findClose x = some (inner, rest) →
    x = inner ++ closePat ++ rest := by
  intro x
  induction x with
  | nil => intro inner rest h; simp [findClose] at h
  | cons c cs ih =>
    intro inner rest h
    simp only [findClose] at h
    split_ifs at h with h1 h2
    · obtain ⟨h1a, h1b⟩ := h1
      cases cs with
      | nil => simp at h1b
      | cons d ds =>
        simp only [List.headD_cons] at h1b
        simp only [List.tail_cons, Option.some_inj, Prod.mk.injEq] at h
        obtain ⟨hi, hr⟩ := h
        subst hi
        subst hr
        subst h1a
        subst h1b
        rfl
    · simp at h
      obtain ⟨a, hfc, hi⟩ := h
      subst hi
      rw [ih a rest hfc]
      rfl

/-- The scan does not depend on the fuel, as long as the fuel covers the
text length. -/
theorem scanStyle_fuel (r : Str → St → Str × St) :
    ∀ (f1 f2 : Nat) (l : Str) (s : St), l.length ≤ f1 → l.length ≤ f2 →
      scanStyle r f1 l s = scanStyle r f2 l s := by
  intro f1
  induction f1 with
  | zero =>
    intro f2 l s h1 h2
    have hl : l = [] := List.length_eq_zero.mp (Nat.le_zero.mp h1)
    subst hl
    cases f2 <;> rfl
  | succ g ih =>
    intro f2 l s h1 h2
    cases l with
    | nil => cases f2 <;> rfl
    | cons c cs =>
      obtain ⟨h, rfl⟩ : ∃ h, f2 = h + 1 := ⟨f2 - 1, by simp at h2; omega⟩
      simp only [scanStyle]
      by_cases hpf : urlPat.isPrefixOf (c :: cs) = true
      · simp only [if_pos hpf]
        cases hfc : findClose ((c :: cs).drop 5) with
        | none =>
          simp only [hfc]
          rw [ih h cs s (by simp at h1; omega) (by simp at h2; omega)]
        | some p =>
          obtain ⟨inner, rest⟩ := p
          simp only [hfc]
          have hdec := congrArg List.length (findClose_decomp _ _ _ hfc)
          simp [closePat] at hdec
          have hr1 : rest.length ≤ g := by simp at h1; omega
          have hr2 : rest.length ≤ h := by simp at h2; omega
          by_cases hq : qualifies inner = true
          · simp only [if_pos hq]
            rw [ih h rest _ hr1 hr2]
          · simp only [if_neg hq]
            rw [ih h rest _ hr1 hr2]
      · simp only [if_neg hpf]
        rw [ih h cs s (by simp at h1; omega) (by simp at h2; omega)]

/-- If no `url("` occurrence starts anywhere in the text, the scan
returns it byte-for-byte unchanged and touches no state. -/
theorem scanStyle_noMatch (r : Str → St → Str × St) :
    ∀ (l : Str) (s : St) (f : Nat), l.length ≤ f → noPatIn l →
      scanStyle r f l s = (l, s) := by
  intro l
  induction l with
  | nil => intro s f _ _; cases f <;> rfl
  | cons c cs ih =>
    intro s f hf hp
    obtain ⟨g, rfl⟩ : ∃ g, f = g + 1 := ⟨f - 1, by simp at hf; omega⟩
    simp only [scanStyle]
    have h0 := hp 0 (by simp)
    rw [List.drop_zero] at h0
    have hfull : ¬ urlPat.isPrefixOf (c :: cs) = true := by
      intro htrue
      have hext : urlPat.isPrefixOf ((c :: cs) ++ urlPat) = true := by
        rw [List.isPrefixOf_iff_prefix] at htrue ⊢
        exact htrue.trans (List.prefix_append _ _)
      rw [h0] at hext
      cases hext
    rw [if_neg hfull]
    have hcs : noPatIn cs := by
      intro i hi
      have := hp (i + 1) (by simp; omega)
      simpa [List.drop_succ_cons] using this
    rw [ih s g (by simp at hf; omega) hcs]

/-- One scan step at a position where the pattern matches and closes. -/
theorem scanStyle_step_match (r : Str → St → Str × St) (g : Nat) (c : Char) (cs inner rest : Str)
    (s : St) (hpf : urlPat.isPrefixOf (c :: cs) = true)
    (hfc : findClose ((c :: cs).drop 5) = some (inner, rest)) :
    scanStyle r (g + 1) (c :: cs) s =
      (let m := if qualifies inner then
          (let r0 := r inner s
           (urlPat ++ r0.1 ++ closePat, r0.2))
        else (urlPat ++ inner ++ closePat, s)
       let t := scanStyle r g rest m.2
       (m.1 ++ t.1, t.2)) := by
  show (if urlPat.isPrefixOf (c :: cs) then
      match findClose ((c :: cs).drop 5) with
      | some (inner, rest) =>
        let m := if qualifies inner then
            (let r0 := r inner s
             (urlPat ++ r0.1 ++ closePat, r0.2))
          else (urlPat ++ inner ++ closePat, s)
        let t := scanStyle r g rest m.2
        (m.1 ++ t.1, t.2)
      | none =>
        let t := scanStyle r g cs s
        (c :: t.1, t.2)
    else
      let t := scanStyle r g cs s
      (c :: t.1, t.2)) = _
  rw [if_pos hpf, hfc]

/-- One scan step at a position where the pattern does not match. -/
theorem scanStyle_step_nomatch (r : Str → St → Str × St) (g : Nat) (c : Char) (cs : Str)
    (s : St) (h : ¬ urlPat.isPrefixOf (c :: cs) = true) :
    scanStyle r (g + 1) (c :: cs) s =
      (let t := scanStyle r g cs s
       (c :: t.1, t.2)) := by
  show (if urlPat.isPrefixOf (c :: cs) then
      match findClose ((c :: cs).drop 5) with
      | some (inner, rest) =>
        let m := if qualifies inner then
            (let r0 := r inner s
             (urlPat ++ r0.1 ++ closePat, r0.2))
          else (urlPat ++ inner ++ closePat, s)
        let t := scanStyle r g rest m.2
        (m.1 ++ t.1, t.2)
      | none =>
        let t := scanStyle r g cs s
        (c :: t.1, t.2)
    else
      let t := scanStyle r g cs s
      (c :: t.1, t.2)) = _
  rw [if_neg h]

/-- One full match, decomposed: a prefix with no match start, the match
itself (rewritten exactly when its inner value qualifies), then the scan
of the remainder from the updated state. -/
theorem scanStyle_decomp (r : Str → St → Str × St) :
    ∀ (pre inner post : Str) (s : St),
      noPatIn pre → '\n' ∉ inner → noCloseIn inner →
      scanStyle r (pre ++ urlPat ++ inner ++ closePat ++ post).length
          (pre ++ urlPat ++ inner ++ closePat ++ post) s =
        (let m := if qualifies inner then
            (let r0 := r inner s
             (urlPat ++ r0.1 ++ closePat, r0.2))
          else (urlPat ++ inner ++ closePat, s)
         let t := scanStyle r post.length post m.2
         (pre ++ m.1 ++ t.1, t.2)) := by
  intro pre
  induction pre with
  | nil =>
    intro inner post s _ hnl hnc
    have hL : ([] : Str) ++ urlPat ++ inner ++ closePat ++ post =
        'u' :: ('r' :: 'l' :: '(' :: '"' :: (inner ++ closePat ++ post)) := by
      simp [urlPat, strL, List.append_assoc]
    rw [hL, List.length_cons]
    rw [scanStyle_step_match r _ _ _ inner post s (by simp [urlPat, strL, List.isPrefixOf])
      (by rw [show ('u' :: ('r' :: 'l' :: '(' :: '"' :: (inner ++ closePat ++ post))).drop 5 =
          inner ++ closePat ++ post from rfl]
          exact findClose_append inner post hnl hnc)]
    have hfuel : ∀ s' : St,
        scanStyle r ('r' :: 'l' :: '(' :: '"' :: (inner ++ closePat ++ post)).length post s' =
          scanStyle r post.length post s' := fun s' =>
      scanStyle_fuel r _ _ post s'
        (by simp only [List.length_cons, List.length_append]; omega) (le_refl _)
    simp only [hfuel]
    simp
  | cons c cs ih =>
    intro inner post s hp hnl hnc
    have hL : (c :: cs) ++ urlPat ++ inner ++ closePat ++ post =
        c :: (cs ++ urlPat ++ inner ++ closePat ++ post) := by
      simp
    rw [hL, List.length_cons]
    have h0 := hp 0 (by simp)
    rw [List.drop_zero] at h0
    have hfull : ¬ urlPat.isPrefixOf (c :: (cs ++ urlPat ++ inner ++ closePat ++ post)) = true := by
      intro htrue
      have hre : urlPat.isPrefixOf (((c :: cs) ++ urlPat) ++ (inner ++ closePat ++ post)) = true := by
        rw [show ((c :: cs) ++ urlPat) ++ (inner ++ closePat ++ post) =
          c :: (cs ++ urlPat ++ inner ++ closePat ++ post) by simp]
        exact htrue
      have hco := isPrefixOf_of_append urlPat ((c :: cs) ++ urlPat) (inner ++ closePat ++ post)
        hre (by simp only [List.length_append, List.length_cons]; omega)
      rw [h0] at hco
      cases hco
    rw [scanStyle_step_nomatch r _ c _ s hfull]
    have hcs : noPatIn cs := by
      intro i hi
      have := hp (i + 1) (by simp; omega)
      simpa [List.drop_succ_cons] using this
    rw [ih inner post s hcs hnl hnc]
    simp

/-- C4: the Style-Attribute Rewriter replaces exactly the double-quoted
`url("...")` matches whose inner value starts with `http://`, `https://`
or `//` — each becomes `url("` + resolve(inner) + `")` — and leaves
every other character, including non-qualifying matches, byte-for-byte
unchanged. -/
theorem C4_style_selectivity (net : Net) (bp bu : Str) :
    (∀ (style : Str) (s : St), noPatIn style →
      process_style_attribute net bp bu style s = (style, s)) ∧
    (∀ (pre inner post : Str) (s : St),
      noPatIn pre → '\n' ∉ inner → noCloseIn inner →
      process_style_attribute net bp bu (pre ++ urlPat ++ inner ++ closePat ++ post) s =
        (let m := if qualifies inner then
            (let r0 := download_and_replace_asset net bp inner bu s
             (urlPat ++ r0.1 ++ closePat, r0.2))
          else (urlPat ++ inner ++ closePat, s)
         let t := process_style_attribute net bp bu post m.2
         (pre ++ m.1 ++ t.1, t.2))) := by
  constructor
  · intro style s h
    exact scanStyle_noMatch _ style s style.length (le_refl _) h
  · intro pre inner post s hp hnl hnc
    exact scanStyle_decomp _ pre inner post s hp hnl hnc

set_option maxRecDepth 1000000 in
theorem C4_witness :
    noPatIn (strL ("background:")) ∧ '\n' ∉ strL ("https://x.com/a.png") ∧
    noCloseIn (strL ("https://x.com/a.png")) ∧
    process_style_attribute netOk basePath0 baseUrl0
        (strL ("background:") ++ urlPat ++ strL ("https://x.com/a.png") ++ closePat ++
          strL (" no-repeat")) st0 =
      (let m := if qualifies (strL ("https://x.com/a.png")) then
          (let r0 := download_and_replace_asset netOk basePath0 (strL ("https://x.com/a.png"))
             baseUrl0 st0
           (urlPat ++ r0.1 ++ closePat, r0.2))
        else (urlPat ++ strL ("https://x.com/a.png") ++ closePat, st0)
       let t := process_style_attribute netOk basePath0 baseUrl0 (strL (" no-repeat")) m.2
       (strL ("background:") ++ m.1 ++ t.1, t.2)) :=
  ⟨by decide, by decide, by decide,
   (C4_style_selectivity netOk basePath0 baseUrl0).2 (strL ("background:"))
     (strL ("https://x.com/a.png")) (strL (" no-repeat")) st0 (by decide) (by decide)
     (by decide)⟩
